import Mathlib

/-!
# `src/uring.c`: the four io_uring helper functions

`uring.c` holds four one-statement C functions that receive raw `uintptr_t`
handles, cast them to liburing pointers and either store one field of a
submission entry (`sqe_set_flags`, `sqe_set_buf_group`) or forward to liburing
(`io_uring_cqe_seen__`, `io_uring_wait_cqe__`).

The embedding is by explicit state passing.  A `uintptr_t` is a natural number
(an address); memory is a typed heap `Machine` mapping addresses to the rings
and submission entries stored there.  Machine integers are naturals reduced
`% 2 ^ w` at every conversion the C code performs (argument passing and field
assignment).
-/

namespace Uring

/-! ## Machine integers -/

/-- Conversion to `uint8_t` / `__u8`. -/
def to_u8 (n : Nat) : Nat := n % 2 ^ 8

/-- Conversion to `__u16`. -/
def to_u16 (n : Nat) : Nat := n % 2 ^ 16

/-- Conversion to `uint32_t` / `unsigned`. -/
def to_u32 (n : Nat) : Nat := n % 2 ^ 32

/-- Unsigned 32-bit subtraction `a - b`, as C computes it on `unsigned` operands. -/
def u32_sub (a b : Nat) : Nat := (a % 2 ^ 32 + (2 ^ 32 - b % 2 ^ 32)) % 2 ^ 32

/-! ## Data model -/

/-- Modelled from the spec: `struct io_uring_sqe` is declared by `<liburing.h>`
(the kernel interface header `linux/io_uring.h`), which is not among the
repository's sources.  The fields are those the spec lists for a
SubmissionEntry (operation code, file descriptor, buffer pointer and length,
correlation token, flags, buffer-group id), under the names and widths of the
kernel declaration: `opcode : __u8`, `flags : __u8`, `ioprio : __u16`,
`fd : __s32`, `off : __u64`, `addr : __u64`, `len : __u32`,
`rw_flags : __u32`, `user_data : __u64`, `buf_group : __u16`,
`personality : __u16`, `splice_fd_in : __s32`, `addr3 : __u64`,
`pad2 : __u64`.  `buf_group` shares its two bytes with `buf_index`
(a union), so the two are one storage cell here. -/
structure io_uring_sqe where
  opcode : Nat
  flags : Nat
  ioprio : Nat
  fd : Int
  off : Nat
  addr : Nat
  len : Nat
  rw_flags : Nat
  user_data : Nat
  buf_group : Nat
  personality : Nat
  splice_fd_in : Int
  addr3 : Nat
  pad2 : Nat
deriving DecidableEq, Repr

/-- Modelled from the spec: the submission-queue half of liburing's
`struct io_uring` (declared in `<liburing.h>`, outside the repository): the
head and tail indices the spec's Ring owns and the queue depth. -/
structure io_uring_sq where
  khead : Nat
  ktail : Nat
  ring_entries : Nat
deriving DecidableEq, Repr

/-- Modelled from the spec: the completion-queue half of liburing's
`struct io_uring` (declared in `<liburing.h>`, outside the repository): the
values of the 32-bit head and tail indices shared with the kernel, and the
queue depth. -/
structure io_uring_cq where
  khead : Nat
  ktail : Nat
  ring_entries : Nat
deriving DecidableEq, Repr

/-- Modelled from the spec: liburing's `struct io_uring` (declared in
`<liburing.h>`, outside the repository), the spec's Ring: a submission queue
and a completion queue, each with head and tail indices. -/
structure io_uring where
  sq : io_uring_sq
  cq : io_uring_cq
  flags : Nat
  ring_fd : Int
deriving DecidableEq, Repr

/-- The memory the four functions act on, as a typed heap: the ring stored at
each address and the submission entry stored at each address.  Objects of the
two kinds, and objects at different addresses, are taken not to overlap. -/
@[ext]
structure Machine where
  ring : Nat → io_uring
  sqe : Nat → io_uring_sqe

/-- Number of unconsumed completions, `tail - head` on 32-bit unsigned indices. -/
def cq_ready (r : io_uring) : Nat := u32_sub r.cq.ktail r.cq.khead

/-- Free completion slots: queue depth minus the unconsumed completions. -/
def cq_free (r : io_uring) : Nat := r.cq.ring_entries - cq_ready r

/-- The spec's ring invariant on the completion queue:
`tail - head ≤ queue depth`, indices taken mod `2 ^ 32`. -/
def ring_inv (r : io_uring) : Prop := cq_ready r ≤ r.cq.ring_entries

instance (r : io_uring) : Decidable (ring_inv r) :=
  inferInstanceAs (Decidable (cq_ready r ≤ r.cq.ring_entries))

/-! ## The wrapped library -/

/-- Modelled from the spec: liburing's `io_uring_cq_advance(ring, nr)`, an
inline function of `<liburing.h>` that is not among the repository's sources.
It is the release step of the spec's `mark_seen`: for `nr ≠ 0` the
completion-queue head index moves forward by `nr` (mod `2 ^ 32`); nothing else
is written. -/
def io_uring_cq_advance (ring : io_uring) (nr : Nat) : io_uring :=
  if nr ≠ 0 then
    { ring with cq := { ring.cq with khead := to_u32 (ring.cq.khead + nr) } }
  else ring

/-- Modelled from the spec: liburing's `io_uring_cqe_seen(ring, cqe)`, an
inline function of `<liburing.h>` that is not among the repository's sources.
It is the spec's `mark_seen`: a non-null completion entry releases exactly one
completion slot (`io_uring_cq_advance(ring, 1)`); the library keeps no record
of which entries were already released. -/
def io_uring_cqe_seen (ring : io_uring) (cqe : Nat) : io_uring :=
  if cqe ≠ 0 then io_uring_cq_advance ring 1 else ring

/-- The wrapped library wait `io_uring_wait_cqe(ring, cqe_ptr)`, left
arbitrary: an effectful function of the ring pointer and the completion-pointer
slot over a world `σ`, returning a C `int`. -/
abbrev WaitFn (σ : Type) := Nat → Nat → σ → Int × σ

/-- Instrumentation of a library wait: behaves as `W` and appends every
invocation's argument pair to a call log carried beside the world. -/
def recorded {σ : Type} (W : WaitFn σ) : WaitFn (σ × List (Nat × Nat)) :=
  fun ring cqe_ptr s =>
    let r := W ring cqe_ptr s.1
    (r.1, (r.2, s.2 ++ [(ring, cqe_ptr)]))

/-! ## The functions of `uring.c` -/

/-- The C function `void io_uring_cqe_seen__(uintptr_t ring_, uintptr_t cqe_)`: casts both
handles and calls `io_uring_cqe_seen(ring, cqe)` on the ring at `ring_`. -/
def io_uring_cqe_seen__ (m : Machine) (ring_ cqe_ : Nat) : Machine :=
  let ring := ring_
  let cqe := cqe_
  { m with ring := Function.update m.ring ring (io_uring_cqe_seen (m.ring ring) cqe) }

/-- The C function `int io_uring_wait_cqe__(uintptr_t ring_, uintptr_t cqe_ptr_)`: casts both
handles and returns `io_uring_wait_cqe(ring, cqe_ptr)`. -/
def io_uring_wait_cqe__ {σ : Type} (io_uring_wait_cqe : WaitFn σ)
    (ring_ cqe_ptr_ : Nat) (s : σ) : Int × σ :=
  let ring := ring_
  let cqe_ptr := cqe_ptr_
  io_uring_wait_cqe ring cqe_ptr s

/-- The C function `void sqe_set_buf_group(uintptr_t sqe_, uint32_t group)`:
`sqe->buf_group = group;`.  The argument arrives as a `uint32_t` and is
converted to the `__u16` field on assignment. -/
def sqe_set_buf_group (m : Machine) (sqe_ : Nat) (group : Nat) : Machine :=
  let group := to_u32 group
  let sqe := sqe_
  { m with sqe := Function.update m.sqe sqe { m.sqe sqe with buf_group := to_u16 group } }

/-- The C function `void sqe_set_flags(uintptr_t sqe_, uint8_t flags)`: `sqe->flags = flags;`.
The argument arrives as a `uint8_t` and is stored in the `__u8` field. -/
def sqe_set_flags (m : Machine) (sqe_ : Nat) (flags : Nat) : Machine :=
  let flags := to_u8 flags
  let sqe := sqe_
  { m with sqe := Function.update m.sqe sqe { m.sqe sqe with flags := to_u8 flags } }

/-! ## Concrete states -/

/-- A submission entry with every flag bit set and a non-zero buffer group. -/
def sqe0 : io_uring_sqe :=
  { opcode := 22, flags := 255, ioprio := 0, fd := 7, off := 0, addr := 4096,
    len := 512, rw_flags := 0, user_data := 3735928559, buf_group := 9,
    personality := 0, splice_fd_in := 0, addr3 := 0, pad2 := 0 }

/-- A ring of depth 4 whose completion queue is empty (`head = tail = 0`). -/
def ring_empty : io_uring :=
  { sq := { khead := 0, ktail := 0, ring_entries := 4 },
    cq := { khead := 0, ktail := 0, ring_entries := 4 },
    flags := 0, ring_fd := 3 }

/-- A ring of depth 4 holding two unconsumed completions, with the head index
at the top of the 32-bit range so that advancing it wraps to zero. -/
def ring_two : io_uring :=
  { sq := { khead := 0, ktail := 0, ring_entries := 4 },
    cq := { khead := 4294967295, ktail := 1, ring_entries := 4 },
    flags := 0, ring_fd := 3 }

/-- A machine whose every ring is `ring_empty` and every entry `sqe0`. -/
def machine_empty : Machine := { ring := fun _ => ring_empty, sqe := fun _ => sqe0 }

/-- A machine whose every ring is `ring_two` and every entry `sqe0`. -/
def machine_two : Machine := { ring := fun _ => ring_two, sqe := fun _ => sqe0 }

/-- A library wait that fails with `-EINTR` (`-4`) and leaves the world alone. -/
def wait_eintr : WaitFn Unit := fun _ _ s => (-4, s)

/-! ## Helper lemmas -/

theorem to_u8_of_lt {n : Nat} (h : n < 2 ^ 8) : to_u8 n = n :=
  Nat.mod_eq_of_lt h

theorem to_u8_idem (n : Nat) : to_u8 (to_u8 n) = to_u8 n := by
  unfold to_u8; omega

theorem to_u16_to_u32 (n : Nat) : to_u16 (to_u32 n) = n % 2 ^ 16 := by
  unfold to_u16 to_u32; omega

theorem sqe_set_flags_sqe_same (m : Machine) (p f : Nat) :
    (sqe_set_flags m p f).sqe p = { m.sqe p with flags := to_u8 f } := by
  simp [sqe_set_flags, to_u8_idem]

theorem sqe_set_flags_sqe_other (m : Machine) (p f q : Nat) (h : q ≠ p) :
    (sqe_set_flags m p f).sqe q = m.sqe q := by
  simp [sqe_set_flags, Function.update_noteq h]

theorem sqe_set_flags_ring (m : Machine) (p f : Nat) :
    (sqe_set_flags m p f).ring = m.ring := rfl

theorem sqe_set_buf_group_sqe_same (m : Machine) (p g : Nat) :
    (sqe_set_buf_group m p g).sqe p = { m.sqe p with buf_group := g % 2 ^ 16 } := by
  simp [sqe_set_buf_group, to_u16_to_u32]

theorem sqe_set_buf_group_sqe_other (m : Machine) (p g q : Nat) (h : q ≠ p) :
    (sqe_set_buf_group m p g).sqe q = m.sqe q := by
  simp [sqe_set_buf_group, Function.update_noteq h]

theorem sqe_set_buf_group_ring (m : Machine) (p g : Nat) :
    (sqe_set_buf_group m p g).ring = m.ring := rfl

theorem io_uring_cqe_seen_of_ne {c : Nat} (ring : io_uring) (hc : c ≠ 0) :
    io_uring_cqe_seen ring c =
      { ring with cq := { ring.cq with khead := (ring.cq.khead + 1) % 2 ^ 32 } } := by
  simp [io_uring_cqe_seen, io_uring_cq_advance, to_u32, hc]

theorem io_uring_cqe_seen_null (ring : io_uring) : io_uring_cqe_seen ring 0 = ring := by
  simp [io_uring_cqe_seen]

theorem io_uring_cqe_seen___ring_same (m : Machine) (r c : Nat) :
    (io_uring_cqe_seen__ m r c).ring r = io_uring_cqe_seen (m.ring r) c := by
  simp [io_uring_cqe_seen__]

theorem io_uring_cqe_seen___ring_other (m : Machine) (r c q : Nat) (h : q ≠ r) :
    (io_uring_cqe_seen__ m r c).ring q = m.ring q := by
  simp [io_uring_cqe_seen__, Function.update_noteq h]

/-! ## The claims -/

/-- C1: `sqe_set_flags` overwrites the flags.  For every machine state (so
whatever flags the entry at `p` held before) and every 8-bit value `f`, the
flags field of the entry read back after `sqe_set_flags(p, f)` is exactly `f`. -/
theorem sqe_set_flags_overwrites (m : Machine) (p f : Nat) (hf : f < 2 ^ 8) :
    ((sqe_set_flags m p f).sqe p).flags = f := by
  rw [sqe_set_flags_sqe_same]
  exact to_u8_of_lt hf

/-- Witness for C1: an entry whose flags were `255` holds exactly `4` after
`sqe_set_flags(1, 4)`. -/
theorem sqe_set_flags_overwrites_witness :
    (machine_empty.sqe 1).flags = 255 ∧ (4 : Nat) < 2 ^ 8 ∧
      ((sqe_set_flags machine_empty 1 4).sqe 1).flags = 4 :=
  ⟨rfl, by decide, sqe_set_flags_overwrites machine_empty 1 4 (by decide)⟩

/-- C2, as stated, fails: `65536` is a value of the `uint32_t` parameter, and
after `sqe_set_buf_group(1, 65536)` the buffer-group id read back from the
entry is `0`, not `65536`. -/
theorem sqe_set_buf_group_readback_counterexample :
    (65536 : Nat) < 2 ^ 32 ∧
      ((sqe_set_buf_group machine_empty 1 65536).sqe 1).buf_group = 0 ∧
      ((sqe_set_buf_group machine_empty 1 65536).sqe 1).buf_group ≠ 65536 := by
  refine ⟨by decide, ?_, ?_⟩ <;> simp [sqe_set_buf_group_sqe_same]

/-- C2, amended: for every machine state (so whether or not the entry's flags
contain the selected-buffer-group bit) and every group value `g` below `2 ^ 16`,
the buffer-group id read back after `sqe_set_buf_group(p, g)` equals `g`. -/
theorem sqe_set_buf_group_readback (m : Machine) (p g : Nat) (hg : g < 2 ^ 16) :
    ((sqe_set_buf_group m p g).sqe p).buf_group = g := by
  rw [sqe_set_buf_group_sqe_same]
  exact Nat.mod_eq_of_lt hg

/-- Witness for C2 (amended): group `65535` is read back from an entry whose
buffer group was `9`, and likewise from the same entry with its flags cleared. -/
theorem sqe_set_buf_group_readback_witness :
    (65535 : Nat) < 2 ^ 16 ∧
      ((sqe_set_buf_group machine_empty 1 65535).sqe 1).buf_group = 65535 ∧
      ((sqe_set_buf_group (sqe_set_flags machine_empty 1 0) 1 65535).sqe 1).buf_group
        = 65535 :=
  ⟨by decide, sqe_set_buf_group_readback machine_empty 1 65535 (by decide),
    sqe_set_buf_group_readback (sqe_set_flags machine_empty 1 0) 1 65535 (by decide)⟩

/-- C3: `sqe_set_flags` changes the flags field only.  For every machine state,
entry address `p` and flags value `f`, every other field of the entry at `p`
(operation code, priority, file descriptor, offset, buffer pointer and length,
operation flags, user data, buffer-group id, personality, the trailing words) is
as before, every other entry is as before, and every ring is as before. -/
theorem sqe_set_flags_frame (m : Machine) (p f : Nat) :
    ((sqe_set_flags m p f).sqe p).opcode = (m.sqe p).opcode ∧
    ((sqe_set_flags m p f).sqe p).ioprio = (m.sqe p).ioprio ∧
    ((sqe_set_flags m p f).sqe p).fd = (m.sqe p).fd ∧
    ((sqe_set_flags m p f).sqe p).off = (m.sqe p).off ∧
    ((sqe_set_flags m p f).sqe p).addr = (m.sqe p).addr ∧
    ((sqe_set_flags m p f).sqe p).len = (m.sqe p).len ∧
    ((sqe_set_flags m p f).sqe p).rw_flags = (m.sqe p).rw_flags ∧
    ((sqe_set_flags m p f).sqe p).user_data = (m.sqe p).user_data ∧
    ((sqe_set_flags m p f).sqe p).buf_group = (m.sqe p).buf_group ∧
    ((sqe_set_flags m p f).sqe p).personality = (m.sqe p).personality ∧
    ((sqe_set_flags m p f).sqe p).splice_fd_in = (m.sqe p).splice_fd_in ∧
    ((sqe_set_flags m p f).sqe p).addr3 = (m.sqe p).addr3 ∧
    ((sqe_set_flags m p f).sqe p).pad2 = (m.sqe p).pad2 ∧
    (∀ q, q ≠ p → (sqe_set_flags m p f).sqe q = m.sqe q) ∧
    (sqe_set_flags m p f).ring = m.ring := by
  rw [sqe_set_flags_sqe_same]
  exact ⟨rfl, rfl, rfl, rfl, rfl, rfl, rfl, rfl, rfl, rfl, rfl, rfl, rfl,
    fun q hq => sqe_set_flags_sqe_other m p f q hq, rfl⟩

/-- C4: `sqe_set_buf_group` changes the buffer-group id only.  For every
machine state, entry address `p` and group value `g`, every other field of the
entry at `p` (operation code, flags, priority, file descriptor, offset, buffer
pointer and length, operation flags, user data, personality, the trailing
words) is as before, every other entry is as before, and every ring is as
before. -/
theorem sqe_set_buf_group_frame (m : Machine) (p g : Nat) :
    ((sqe_set_buf_group m p g).sqe p).opcode = (m.sqe p).opcode ∧
    ((sqe_set_buf_group m p g).sqe p).flags = (m.sqe p).flags ∧
    ((sqe_set_buf_group m p g).sqe p).ioprio = (m.sqe p).ioprio ∧
    ((sqe_set_buf_group m p g).sqe p).fd = (m.sqe p).fd ∧
    ((sqe_set_buf_group m p g).sqe p).off = (m.sqe p).off ∧
    ((sqe_set_buf_group m p g).sqe p).addr = (m.sqe p).addr ∧
    ((sqe_set_buf_group m p g).sqe p).len = (m.sqe p).len ∧
    ((sqe_set_buf_group m p g).sqe p).rw_flags = (m.sqe p).rw_flags ∧
    ((sqe_set_buf_group m p g).sqe p).user_data = (m.sqe p).user_data ∧
    ((sqe_set_buf_group m p g).sqe p).personality = (m.sqe p).personality ∧
    ((sqe_set_buf_group m p g).sqe p).splice_fd_in = (m.sqe p).splice_fd_in ∧
    ((sqe_set_buf_group m p g).sqe p).addr3 = (m.sqe p).addr3 ∧
    ((sqe_set_buf_group m p g).sqe p).pad2 = (m.sqe p).pad2 ∧
    (∀ q, q ≠ p → (sqe_set_buf_group m p g).sqe q = m.sqe q) ∧
    (sqe_set_buf_group m p g).ring = m.ring := by
  rw [sqe_set_buf_group_sqe_same]
  exact ⟨rfl, rfl, rfl, rfl, rfl, rfl, rfl, rfl, rfl, rfl, rfl, rfl, rfl,
    fun q hq => sqe_set_buf_group_sqe_other m p g q hq, rfl⟩

/-- C5: `io_uring_wait_cqe__` propagates the wait outcome unchanged and without
retrying.  For every library wait `W` over any world, every ring handle, slot
handle and world, the wrapper's result (returned integer and resulting world)
is exactly `W`'s at those two arguments; and run over the call-recording
instrumentation of `W` it appends exactly one call, with those same two
arguments, to the log; in particular a negative code comes back negative. -/
theorem io_uring_wait_cqe___propagates {σ : Type} (W : WaitFn σ) (ring_ cqe_ptr_ : Nat)
    (s : σ) (log : List (Nat × Nat)) :
    io_uring_wait_cqe__ W ring_ cqe_ptr_ s = W ring_ cqe_ptr_ s ∧
    io_uring_wait_cqe__ (recorded W) ring_ cqe_ptr_ (s, log)
      = ((W ring_ cqe_ptr_ s).1, (W ring_ cqe_ptr_ s).2, log ++ [(ring_, cqe_ptr_)]) ∧
    ((W ring_ cqe_ptr_ s).1 < 0 → (io_uring_wait_cqe__ W ring_ cqe_ptr_ s).1 < 0) :=
  ⟨rfl, rfl, fun h => h⟩

/-- Witness for C5: a library wait that fails with `-EINTR` (`-4`); the wrapper
returns `-4` and the call log holds the single call `(1, 2)`. -/
theorem io_uring_wait_cqe___propagates_witness :
    io_uring_wait_cqe__ wait_eintr 1 2 () = (-4, ()) ∧
      io_uring_wait_cqe__ (recorded wait_eintr) 1 2 ((), []) = (-4, (), [(1, 2)]) :=
  ⟨(io_uring_wait_cqe___propagates wait_eintr 1 2 () []).1,
    (io_uring_wait_cqe___propagates wait_eintr 1 2 () []).2.1⟩

/-- C6: marking a completion seen once releases exactly one slot.  For every
machine state whose ring at `r` holds at least one unconsumed completion
(`tail - head ≥ 1`, mod `2 ^ 32`) and every non-null completion entry `c`, one
call `io_uring_cqe_seen__(r, c)` advances the completion-queue head by exactly
one (mod `2 ^ 32`), so the number of unconsumed completions drops by exactly
one and, in a ring within its depth, the number of free slots rises by one; the
tail, the depth and the submission queue are unchanged, and so are every other
ring and every submission entry. -/
theorem io_uring_cqe_seen___releases_one (m : Machine) (r c : Nat) (hc : c ≠ 0)
    (hready : 1 ≤ cq_ready (m.ring r)) :
    ((io_uring_cqe_seen__ m r c).ring r).cq.khead = ((m.ring r).cq.khead + 1) % 2 ^ 32 ∧
    u32_sub ((io_uring_cqe_seen__ m r c).ring r).cq.khead (m.ring r).cq.khead = 1 ∧
    cq_ready ((io_uring_cqe_seen__ m r c).ring r) + 1 = cq_ready (m.ring r) ∧
    (ring_inv (m.ring r) →
      cq_free ((io_uring_cqe_seen__ m r c).ring r) = cq_free (m.ring r) + 1) ∧
    ((io_uring_cqe_seen__ m r c).ring r).cq.ktail = (m.ring r).cq.ktail ∧
    ((io_uring_cqe_seen__ m r c).ring r).cq.ring_entries = (m.ring r).cq.ring_entries ∧
    ((io_uring_cqe_seen__ m r c).ring r).sq = (m.ring r).sq ∧
    (∀ q, q ≠ r → (io_uring_cqe_seen__ m r c).ring q = m.ring q) ∧
    (io_uring_cqe_seen__ m r c).sqe = m.sqe := by
  rw [io_uring_cqe_seen___ring_same, io_uring_cqe_seen_of_ne _ hc]
  unfold cq_ready u32_sub at hready
  refine ⟨rfl, ?_, ?_, ?_, rfl, rfl, rfl,
    fun q hq => io_uring_cqe_seen___ring_other m r c q hq, rfl⟩
  · simp only [u32_sub]; omega
  · simp only [cq_ready, u32_sub]; omega
  · intro hinv
    simp only [ring_inv, cq_ready, u32_sub] at hinv
    simp only [cq_free, cq_ready, u32_sub]; omega

/-- Witness for C6: a ring with head `2 ^ 32 - 1` and tail `1` (two unconsumed
completions); one call with a non-null entry wraps the head to `0` and leaves
one unconsumed completion. -/
theorem io_uring_cqe_seen___releases_one_witness :
    cq_ready (machine_two.ring 1) = 2 ∧
      ((io_uring_cqe_seen__ machine_two 1 8).ring 1).cq.khead = 0 ∧
      cq_ready ((io_uring_cqe_seen__ machine_two 1 8).ring 1) + 1
        = cq_ready (machine_two.ring 1) := by
  have h := io_uring_cqe_seen___releases_one machine_two 1 8 (by decide) (by decide)
  exact ⟨by decide, h.1, h.2.2.1⟩

/-- C7: `io_uring_cqe_seen__` is not idempotent.  For every machine state, ring
address `r` and non-null completion entry `c`, the ring after two successive
calls differs from the ring after one call: the completion-queue head has been
advanced a second time.  Hence the two machine states differ. -/
theorem io_uring_cqe_seen___not_idempotent (m : Machine) (r c : Nat) (hc : c ≠ 0) :
    ((io_uring_cqe_seen__ (io_uring_cqe_seen__ m r c) r c).ring r).cq.khead
      = (((io_uring_cqe_seen__ m r c).ring r).cq.khead + 1) % 2 ^ 32 ∧
    ((io_uring_cqe_seen__ (io_uring_cqe_seen__ m r c) r c).ring r).cq.khead
      ≠ ((io_uring_cqe_seen__ m r c).ring r).cq.khead ∧
    (io_uring_cqe_seen__ (io_uring_cqe_seen__ m r c) r c).ring r
      ≠ (io_uring_cqe_seen__ m r c).ring r ∧
    io_uring_cqe_seen__ (io_uring_cqe_seen__ m r c) r c ≠ io_uring_cqe_seen__ m r c := by
  have hk : ((io_uring_cqe_seen__ (io_uring_cqe_seen__ m r c) r c).ring r).cq.khead
      = (((io_uring_cqe_seen__ m r c).ring r).cq.khead + 1) % 2 ^ 32 := by
    rw [io_uring_cqe_seen___ring_same (io_uring_cqe_seen__ m r c),
      io_uring_cqe_seen_of_ne _ hc]
  have hlt : ((io_uring_cqe_seen__ m r c).ring r).cq.khead < 2 ^ 32 := by
    rw [io_uring_cqe_seen___ring_same, io_uring_cqe_seen_of_ne _ hc]
    exact Nat.mod_lt _ (by decide)
  have hne : ((io_uring_cqe_seen__ (io_uring_cqe_seen__ m r c) r c).ring r).cq.khead
      ≠ ((io_uring_cqe_seen__ m r c).ring r).cq.khead := by
    rw [hk]; omega
  refine ⟨hk, hne, ?_, ?_⟩
  · intro h; exact hne (by rw [h])
  · intro h; exact hne (by rw [h])

/-- Witness for C7: on an empty ring, one call with a non-null entry leaves the
head at `1`, a second call leaves it at `2`. -/
theorem io_uring_cqe_seen___not_idempotent_witness :
    ((io_uring_cqe_seen__ machine_empty 1 8).ring 1).cq.khead = 1 ∧
      ((io_uring_cqe_seen__ (io_uring_cqe_seen__ machine_empty 1 8) 1 8).ring 1).cq.khead = 2 ∧
      io_uring_cqe_seen__ (io_uring_cqe_seen__ machine_empty 1 8) 1 8
        ≠ io_uring_cqe_seen__ machine_empty 1 8 :=
  ⟨by decide, by decide,
    (io_uring_cqe_seen___not_idempotent machine_empty 1 8 (by decide)).2.2.2⟩

/-- C8, as stated, fails: the empty ring of depth 4 (`head = tail = 0`)
satisfies `tail - head ≤ depth`, and after `io_uring_cqe_seen__` with a
non-null entry the head is `1`, `tail - head` is `2 ^ 32 - 1` (mod `2 ^ 32`)
and the invariant no longer holds. -/
theorem ring_inv_cqe_seen_counterexample :
    ring_inv (machine_empty.ring 1) ∧
      cq_ready ((io_uring_cqe_seen__ machine_empty 1 8).ring 1) = 4294967295 ∧
      ((io_uring_cqe_seen__ machine_empty 1 8).ring 1).cq.ring_entries = 4 ∧
      ¬ ring_inv ((io_uring_cqe_seen__ machine_empty 1 8).ring 1) := by
  decide

/-- C8, amended: for every machine state whose ring at `r` satisfies
`tail - head ≤ depth` (mod `2 ^ 32`), and for every completion entry, entry
address, flags value and group value: after `io_uring_cqe_seen__`, after
`sqe_set_flags` and after `sqe_set_buf_group` neither the head nor the tail
index has decreased (the head has moved forward by at most one mod `2 ^ 32`
under `io_uring_cqe_seen__`, the tail and the submission queue are unchanged,
and the setters leave the ring as it was); the invariant still holds after both
setters, and it still holds after `io_uring_cqe_seen__` whenever the completion
entry is null or the ring holds at least one unconsumed completion. -/
theorem ring_inv_preserved (m : Machine) (r c p f g : Nat)
    (hinv : ring_inv (m.ring r)) :
    (c = 0 ∨ 1 ≤ cq_ready (m.ring r) → ring_inv ((io_uring_cqe_seen__ m r c).ring r)) ∧
    ring_inv ((sqe_set_flags m p f).ring r) ∧
    ring_inv ((sqe_set_buf_group m p g).ring r) ∧
    u32_sub ((io_uring_cqe_seen__ m r c).ring r).cq.khead (m.ring r).cq.khead ≤ 1 ∧
    ((io_uring_cqe_seen__ m r c).ring r).cq.ktail = (m.ring r).cq.ktail ∧
    ((io_uring_cqe_seen__ m r c).ring r).sq = (m.ring r).sq ∧
    (sqe_set_flags m p f).ring r = m.ring r ∧
    (sqe_set_buf_group m p g).ring r = m.ring r := by
  rw [sqe_set_flags_ring, sqe_set_buf_group_ring, io_uring_cqe_seen___ring_same]
  refine ⟨?_, hinv, hinv, ?_, ?_, ?_, rfl, rfl⟩
  · intro hc
    by_cases h0 : c = 0
    · subst h0; rw [io_uring_cqe_seen_null]; exact hinv
    · have hready : 1 ≤ cq_ready (m.ring r) := hc.resolve_left h0
      rw [io_uring_cqe_seen_of_ne _ h0]
      simp only [ring_inv, cq_ready, u32_sub] at hinv hready ⊢
      omega
  · by_cases h0 : c = 0
    · subst h0; rw [io_uring_cqe_seen_null]; simp only [u32_sub]; omega
    · rw [io_uring_cqe_seen_of_ne _ h0]; simp only [u32_sub]; omega
  · by_cases h0 : c = 0
    · subst h0; rw [io_uring_cqe_seen_null]
    · rw [io_uring_cqe_seen_of_ne _ h0]
  · by_cases h0 : c = 0
    · subst h0; rw [io_uring_cqe_seen_null]
    · rw [io_uring_cqe_seen_of_ne _ h0]

/-- Witness for C8 (amended): the ring with two unconsumed completions and
depth 4 keeps its invariant through `io_uring_cqe_seen__` and both setters;
and on the empty ring, where no completion is pending, a call with a non-null
entry still moves the head forward by at most one and leaves the tail alone. -/
theorem ring_inv_preserved_witness :
    ring_inv (machine_two.ring 1) ∧ 1 ≤ cq_ready (machine_two.ring 1) ∧
      ring_inv ((io_uring_cqe_seen__ machine_two 1 8).ring 1) ∧
      ring_inv ((sqe_set_flags machine_two 2 4).ring 1) ∧
      ring_inv ((sqe_set_buf_group machine_two 2 70000).ring 1) ∧
      ring_inv (machine_empty.ring 1) ∧
      u32_sub ((io_uring_cqe_seen__ machine_empty 1 8).ring 1).cq.khead
        (machine_empty.ring 1).cq.khead ≤ 1 ∧
      ((io_uring_cqe_seen__ machine_empty 1 8).ring 1).cq.ktail
        = (machine_empty.ring 1).cq.ktail := by
  have h := ring_inv_preserved machine_two 1 8 2 4 70000 (by decide)
  have e := ring_inv_preserved machine_empty 1 8 2 4 70000 (by decide)
  exact ⟨by decide, by decide, h.1 (Or.inr (by decide)), h.2.1, h.2.2.1,
    by decide, e.2.2.2.1, e.2.2.2.2.1⟩

/-- C9: the value `sqe_set_buf_group` stores is its argument reduced to the
16-bit field.  For every machine state, entry address `p` and argument `g`, the
buffer-group id read back after `sqe_set_buf_group(p, g)` is `g mod 2 ^ 16`; it
equals `g` exactly when `g < 65536`; and two arguments that agree mod `2 ^ 16`
leave the machine in the same state. -/
theorem sqe_set_buf_group_stores_mod (m : Machine) (p g : Nat) :
    ((sqe_set_buf_group m p g).sqe p).buf_group = g % 2 ^ 16 ∧
    (((sqe_set_buf_group m p g).sqe p).buf_group = g ↔ g < 65536) ∧
    (∀ g2 : Nat, g % 2 ^ 16 = g2 % 2 ^ 16 →
      sqe_set_buf_group m p g = sqe_set_buf_group m p g2) := by
  rw [sqe_set_buf_group_sqe_same]
  refine ⟨rfl, ?_, ?_⟩
  · show g % 2 ^ 16 = g ↔ g < 65536
    omega
  · intro g2 h
    have h1 : to_u16 (to_u32 g) = to_u16 (to_u32 g2) := by
      rw [to_u16_to_u32, to_u16_to_u32, h]
    simp only [sqe_set_buf_group, h1]

/-- Witness for C9: the 32-bit argument `70000` is stored as `4464`, the same
state as storing `4464` itself. -/
theorem sqe_set_buf_group_stores_mod_witness :
    (70000 : Nat) < 2 ^ 32 ∧
      ((sqe_set_buf_group machine_empty 1 70000).sqe 1).buf_group = 4464 ∧
      sqe_set_buf_group machine_empty 1 70000 = sqe_set_buf_group machine_empty 1 4464 :=
  ⟨by decide, (sqe_set_buf_group_stores_mod machine_empty 1 70000).1,
    (sqe_set_buf_group_stores_mod machine_empty 1 70000).2.2 4464 (by decide)⟩

/-- C10: the two setters commute.  For every machine state, entry address `p`,
8-bit flags value `f` and group value `g`, `sqe_set_flags(p, f)` followed by
`sqe_set_buf_group(p, g)` leaves the machine in exactly the state of
`sqe_set_buf_group(p, g)` followed by `sqe_set_flags(p, f)`; in that state the
entry's flags are `f` and its buffer-group id is the one `sqe_set_buf_group`
alone stores for `g`, namely `g mod 2 ^ 16`. -/
theorem sqe_setters_commute (m : Machine) (p f g : Nat) (hf : f < 2 ^ 8) :
    sqe_set_buf_group (sqe_set_flags m p f) p g
      = sqe_set_flags (sqe_set_buf_group m p g) p f ∧
    ((sqe_set_buf_group (sqe_set_flags m p f) p g).sqe p).flags = f ∧
    ((sqe_set_buf_group (sqe_set_flags m p f) p g).sqe p).buf_group
      = ((sqe_set_buf_group m p g).sqe p).buf_group ∧
    ((sqe_set_buf_group (sqe_set_flags m p f) p g).sqe p).buf_group = g % 2 ^ 16 := by
  refine ⟨?_, ?_, ?_, ?_⟩
  · apply Machine.ext
    · rfl
    · funext q
      by_cases h : q = p
      · subst h
        rw [sqe_set_buf_group_sqe_same, sqe_set_flags_sqe_same, sqe_set_flags_sqe_same,
          sqe_set_buf_group_sqe_same]
      · rw [sqe_set_buf_group_sqe_other _ _ _ _ h, sqe_set_flags_sqe_other _ _ _ _ h,
          sqe_set_flags_sqe_other _ _ _ _ h, sqe_set_buf_group_sqe_other _ _ _ _ h]
  · rw [sqe_set_buf_group_sqe_same, sqe_set_flags_sqe_same]
    exact to_u8_of_lt hf
  · rw [sqe_set_buf_group_sqe_same, sqe_set_buf_group_sqe_same]
  · rw [sqe_set_buf_group_sqe_same]

/-- Witness for C10: flags `4` and group `70000` on the entry at address `1`,
in either order, leave flags `4` and buffer group `4464`. -/
theorem sqe_setters_commute_witness :
    (4 : Nat) < 2 ^ 8 ∧
      sqe_set_buf_group (sqe_set_flags machine_empty 1 4) 1 70000
        = sqe_set_flags (sqe_set_buf_group machine_empty 1 70000) 1 4 ∧
      ((sqe_set_flags (sqe_set_buf_group machine_empty 1 70000) 1 4).sqe 1).flags = 4 ∧
      ((sqe_set_flags (sqe_set_buf_group machine_empty 1 70000) 1 4).sqe 1).buf_group
        = 4464 := by
  have h := sqe_setters_commute machine_empty 1 4 70000 (by decide)
  exact ⟨by decide, h.1, h.1 ▸ h.2.1, h.1 ▸ h.2.2.2⟩

end Uring
